import Mathlib

/-!
Shallow embedding of the PicConv image-converter application (`src/src/App.tsx`).

The application is a single React component.  Its state is the hook state of
`App` (`images`, `targetFormat`, `isConverting`, `showInfo`, `darkMode`); every
operation is one of the component's callbacks.  Browser primitives (image
decoding, the 2d canvas context, `canvas.toBlob`, `URL.createObjectURL`) are
modelled by an explicit environment `Env`, and every call an operation makes
into the platform is recorded in an `Effect` trace.  `null` fields of the
TypeScript records become `Option`; JS truthiness tests on `convertedUrl` are
modelled by `Option.isSome`, which is faithful because the only string ever
stored there is a (nonempty) `blob:` object URL.
-/

namespace PicConv

/-- A browser `File` as this app uses it: a name, a MIME type, and an abstract
content identifier. -/
structure File where
  name : String
  type : String
  data : Nat
deriving DecidableEq

/-- An encoded blob produced by `canvas.toBlob`, abstracted to an identifier. -/
structure Blob where
  id : Nat
deriving DecidableEq

/-- The `ImageFile` interface of `App.tsx` (lines 18-26). -/
structure ImageFile where
  id : String
  file : File
  preview : String
  convertedUrl : Option String
  converting : Bool
  error : Option String
  targetFormat : String
deriving DecidableEq

/-- Outcome of loading `image.preview` into an `Image` element: either the
`onerror` event fires, or `onload` fires with the decoded dimensions. -/
inductive DecodeResult where
  | err : DecodeResult
  | ok (width height : Nat) : DecodeResult
deriving DecidableEq

/-- Outcome of `canvas.toBlob`: the call throws synchronously, or the callback
receives `null`, or the callback receives an encoded blob. -/
inductive BlobResult where
  | thrown (msg : String) : BlobResult
  | nullBlob : BlobResult
  | ok (b : Blob) : BlobResult
deriving DecidableEq

/-- The browser environment one `convertImage` call runs against. -/
structure Env where
  decode : DecodeResult
  ctx2d : Bool
  toBlob : BlobResult
  createUrl : Blob → String

/-- A platform call made by an operation.  The constructors list everything the
component actually calls, plus `netRequest` and `persistData`, which the effect
language can express but no operation ever emits. -/
inductive Effect where
  | createCanvas (w h : Nat) : Effect
  | setFillStyle (color : String) : Effect
  | fillRect (x y w h : Nat) : Effect
  | drawImage (x y : Nat) : Effect
  | toBlobCall (mime : String) (quality : Option Rat) : Effect
  | createObjectURL (url : String) : Effect
  | revokeObjectURL (url : String) : Effect
  | domDownloadClick (url name : String) : Effect
  | netRequest (url : String) : Effect
  | persistData (key value : String) : Effect
deriving DecidableEq

/-- JavaScript `String.prototype.split` with a single-character separator, on
the character list of the string.  Always returns a nonempty list; adjacent
separators and separators at the ends produce empty fragments, as in JS. -/
def splitOnChar (c : Char) : List Char → List (List Char)
  | [] => [[]]
  | a :: rest =>
    match splitOnChar c rest with
    | [] => [[a]]
    | g :: gs => if a = c then [] :: g :: gs else (a :: g) :: gs

/-- JavaScript `s.split(c)` for a one-character separator `c`. -/
def jsSplit (s : String) (c : Char) : List String :=
  (splitOnChar c s.data).map String.mk

/-- `format.split('/')` then take the last element (App.tsx lines 130-131). -/
def extensionOf (format : String) : String :=
  (jsSplit format '/').getLastD ""

/-- The converted file name: the part of the original name before the first
`.`, then `.`, then the extension (App.tsx line 151). -/
def convertedName (origName format : String) : String :=
  (jsSplit origName '.').headD "" ++ "." ++ extensionOf format

/-- Result of one `convertImage` call: the `ImageFile` the promise resolves
with, and the platform calls made along the way. -/
structure ConvertOut where
  result : ImageFile
  calls : List Effect
deriving DecidableEq

/-- The conversion routine `convertImage` (App.tsx lines 102-185), with every
platform interaction factored through `env`.  All control paths of the source
call `resolve`, so the embedding is a total function. -/
def convertImage (env : Env) (image : ImageFile) : ConvertOut :=
  match env.decode with
  | DecodeResult.err =>
      { result := { image with converting := false, error := some "Failed to load image" },
        calls := [] }
  | DecodeResult.ok w h =>
      if env.ctx2d = false then
        { result :=
            { image with converting := false, error := some "Failed to get canvas context" },
          calls := [Effect.createCanvas w h] }
      else
        let bg : List Effect :=
          if image.targetFormat == "image/jpeg" || image.targetFormat == "image/bmp" then
            [Effect.setFillStyle "#FFFFFF", Effect.fillRect 0 0 w h]
          else []
        let quality : Option Rat :=
          if image.targetFormat == "image/jpeg" then some (95 / 100) else none
        let calls := Effect.createCanvas w h :: bg ++
          [Effect.drawImage 0 0, Effect.toBlobCall image.targetFormat quality]
        match env.toBlob with
        | BlobResult.thrown msg =>
            { result :=
                { image with converting := false,
                             error := some ("Conversion failed: " ++ msg) },
              calls := calls }
        | BlobResult.nullBlob =>
            { result := { image with converting := false, error := some "Conversion failed" },
              calls := calls }
        | BlobResult.ok b =>
            let convertedFile : File :=
              { name := convertedName image.file.name image.targetFormat,
                type := image.targetFormat,
                data := b.id }
            let url := env.createUrl b
            { result :=
                { image with file := convertedFile, convertedUrl := some url,
                             converting := false, error := none },
              calls := calls ++ [Effect.createObjectURL url] }

/-- The hook state of the `App` component (App.tsx lines 29-33). -/
structure AppState where
  images : List ImageFile
  targetFormat : String
  isConverting : Bool
  showInfo : Bool
  darkMode : Bool
deriving DecidableEq

/-- Scheduling events of one `convertAllImages` run.  `mark` records the image
list right after the initial `setImages` that marks everything as converting;
`beginC i img` records that the conversion of the `i`-th image of the captured
list starts, with `img` the record passed to `convertImage`; `finishC i r`
records that its promise resolved with `r`; `updateC i r before after` records
the `setImages` performed right after that resolution, taking the component
state from `before` to `after`. -/
inductive Ev where
  | mark (imgs : List ImageFile) : Ev
  | beginC (i : Nat) (img : ImageFile) : Ev
  | finishC (i : Nat) (r : ImageFile) : Ev
  | updateC (i : Nat) (r : ImageFile) (before after : List ImageFile) : Ev
deriving DecidableEq

/-- The initial `setImages` of `convertAllImages` (App.tsx line 193): mark
every image as converting and clear its error. -/
def markConverting (l : List ImageFile) : List ImageFile :=
  l.map (fun img => { img with converting := true, error := none })

/-- The per-image `setImages` of `convertAllImages` (App.tsx lines 202-204):
replace the entry whose id matches the resolved record. -/
def updateById (r : ImageFile) (l : List ImageFile) : List ImageFile :=
  l.map (fun img => if img.id == r.id then r else img)

/-- The `for … await` loop body of `convertAllImages` (App.tsx lines 196-205):
iterate over the captured list `orig`, converting each image in turn and
updating the current component list `cur` after each resolution.  Returns the
final list, the scheduling trace, and the platform calls made. -/
def runConversions (envOf : ImageFile → Env) :
    List ImageFile → List ImageFile → Nat → List ImageFile × List Ev × List Effect
  | [], cur, _ => (cur, [], [])
  | img :: rest, cur, i =>
    let out := convertImage (envOf img) img
    let next := updateById out.result cur
    let tail := runConversions envOf rest next (i + 1)
    (tail.1,
     Ev.beginC i img :: Ev.finishC i out.result :: Ev.updateC i out.result cur next :: tail.2.1,
     out.calls ++ tail.2.2)

/-- `convertAllImages` (App.tsx lines 187-208).  An empty list returns before
any state change; otherwise every image is marked converting, the captured
list is converted sequentially, and `isConverting` ends up `false`. -/
def convertAllImages (envOf : ImageFile → Env) (s : AppState) :
    AppState × List Ev × List Effect :=
  if s.images.isEmpty then (s, [], [])
  else
    let marked := markConverting s.images
    let run := runConversions envOf s.images marked 0
    ({ s with images := run.1, isConverting := false }, Ev.mark marked :: run.2.1, run.2.2)

/-- The object URLs the cleanup code revokes for one image: always the
preview, plus the converted URL when present (App.tsx lines 92-97, 231-235). -/
def handlesOf (img : ImageFile) : List String :=
  img.preview :: (match img.convertedUrl with
    | some u => [u]
    | none => [])

/-- `removeImage` (App.tsx lines 87-100): drop the image with the given id and
revoke the object URLs of the first entry carrying that id. -/
def removeImage (id : String) (s : AppState) : AppState × List Effect :=
  let revoked := match s.images.find? (fun img => img.id == id) with
    | some img => handlesOf img
    | none => []
  ({ s with images := s.images.filter (fun img => !(img.id == id)) },
   revoked.map Effect.revokeObjectURL)

/-- `clearAllImages` (App.tsx lines 229-238): revoke every image's object URLs
and empty the list. -/
def clearAllImages (s : AppState) : AppState × List Effect :=
  ({ s with images := [] }, (s.images.flatMap handlesOf).map Effect.revokeObjectURL)

/-- `downloadImage` (App.tsx lines 210-219): nothing happens without a
converted URL; otherwise a transient anchor pointing at the converted URL with
the image's current file name is clicked. -/
def downloadImage (image : ImageFile) : List Effect :=
  match image.convertedUrl with
  | none => []
  | some url => [Effect.domDownloadClick url image.file.name]

/-- `downloadAllImages` (App.tsx lines 221-227): walk the list and download
each image that has a converted URL. -/
def downloadAllImages (images : List ImageFile) : List Effect :=
  images.flatMap (fun image => if image.convertedUrl.isSome then downloadImage image else [])

/-- The records `handleFileSelect` builds for the selected files (App.tsx
lines 39-47), with the id and preview allocators as oracles indexed by draw
order.  Each record defaults to the global target format current at that
moment. -/
def newEntries (uuids previews : Nat → String) (targetFormat : String) :
    Nat → List File → List ImageFile
  | _, [] => []
  | n, f :: rest =>
      { id := uuids n, file := f, preview := previews n, convertedUrl := none,
        converting := false, error := none, targetFormat := targetFormat } ::
        newEntries uuids previews targetFormat (n + 1) rest

/-- `handleFileSelect` (App.tsx lines 36-55): an empty selection returns
early; otherwise the new records are appended to the list, creating one
preview object URL per file. -/
def handleFileSelect (uuids previews : Nat → String) (files : List File)
    (s : AppState) : AppState × List Effect :=
  if files.isEmpty then (s, [])
  else
    let entries := newEntries uuids previews s.targetFormat 0 files
    ({ s with images := s.images ++ entries },
     entries.map (fun e => Effect.createObjectURL e.preview))

/-- `updateImageTargetFormat` (App.tsx lines 249-263): set the target format
of the entry with the given id and reset its conversion results. -/
def updateImageTargetFormat (id format : String) (images : List ImageFile) :
    List ImageFile :=
  images.map (fun img =>
    if img.id == id then
      { img with targetFormat := format, convertedUrl := none, error := none }
    else img)

/-- `applyGlobalFormatToAll` (App.tsx lines 265-275): set every entry's target
format to the global one and reset its conversion results. -/
def applyGlobalFormatToAll (targetFormat : String) (images : List ImageFile) :
    List ImageFile :=
  images.map (fun img =>
    { img with targetFormat := targetFormat, convertedUrl := none, error := none })

/-- `toggleTheme` (App.tsx lines 245-247). -/
def toggleTheme (s : AppState) : AppState :=
  { s with darkMode := !s.darkMode }

/-- The `setTargetFormat` click handler of the format buttons (App.tsx
line 338). -/
def setTargetFormat (format : String) (s : AppState) : AppState :=
  { s with targetFormat := format }

/-- The `setShowInfo(!showInfo)` click handler (App.tsx line 295). -/
def toggleInfo (s : AppState) : AppState :=
  { s with showInfo := !s.showInfo }

/-- An effect is local when it is an object-URL, canvas or DOM-download
interaction — anything but a network request or a persistent write. -/
def localEffect : Effect → Bool
  | Effect.netRequest _ => false
  | Effect.persistData _ _ => false
  | _ => true

/-- The shape of a scheduling event, with the payloads erased. -/
inductive Tag where
  | markT : Tag
  | beginT (i : Nat) : Tag
  | finishT (i : Nat) : Tag
  | updateT (i : Nat) : Tag
deriving DecidableEq

/-- Erase a scheduling event to its shape. -/
def tagOf : Ev → Tag
  | Ev.mark _ => Tag.markT
  | Ev.beginC i _ => Tag.beginT i
  | Ev.finishC i _ => Tag.finishT i
  | Ev.updateC i _ _ _ => Tag.updateT i

/-- The strictly sequential schedule on indices `i, i+1, …, i+n-1`: each
conversion begins, resolves and posts its state update before the next one
begins. -/
def seqTags : Nat → Nat → List Tag
  | _, 0 => []
  | i, n + 1 => Tag.beginT i :: Tag.finishT i :: Tag.updateT i :: seqTags (i + 1) n

/-- Scan a tag trace counting conversions in flight: a conversion may begin
only when none is in flight, and a resolution requires exactly one in
flight. -/
def inflightOk : Nat → List Tag → Bool
  | _, [] => true
  | k, Tag.beginT _ :: rest => k == 0 && inflightOk (k + 1) rest
  | k, Tag.finishT _ :: rest => k == 1 && inflightOk (k - 1) rest
  | k, _ :: rest => inflightOk k rest

/-- Adjacency discipline of the conversion loop: a begun conversion is
immediately followed by its own resolution (with the result `convertImage`
yields for its input), and a resolution is immediately followed by the state
update replacing the resolved image's entry. -/
def adjOk (envOf : ImageFile → Env) : Ev → Ev → Prop
  | Ev.beginC i img, e => e = Ev.finishC i (convertImage (envOf img) img).result
  | Ev.finishC i r, e => ∃ before, e = Ev.updateC i r before (updateById r before)
  | _, _ => True

/-- The conversions a trace starts: index and exact input record of every
`beginC` event, in trace order. -/
def beginsOf (t : List Ev) : List (Nat × ImageFile) :=
  t.filterMap (fun e => match e with
    | Ev.beginC i img => some (i, img)
    | _ => none)

/-- Pair each list element with its index, starting at `i`. -/
def enumFrom {α : Type} : Nat → List α → List (Nat × α)
  | _, [] => []
  | i, a :: l => (i, a) :: enumFrom (i + 1) l

theorem runConversions_tags (envOf : ImageFile → Env) (orig : List ImageFile) :
    ∀ cur i, ((runConversions envOf orig cur i).2.1).map tagOf = seqTags i orig.length := by
  induction orig with
  | nil => intro cur i; simp [runConversions, seqTags]
  | cons img rest ih =>
      intro cur i
      simp [runConversions, seqTags, tagOf, ih]

theorem inflightOk_seqTags (n : Nat) : ∀ i, inflightOk 0 (seqTags i n) = true := by
  induction n with
  | zero => intro i; simp [seqTags, inflightOk]
  | succ m ih => intro i; simp [seqTags, inflightOk, ih]

theorem runConversions_chain (envOf : ImageFile → Env) (orig : List ImageFile) :
    ∀ cur i, List.Chain' (adjOk envOf) ((runConversions envOf orig cur i).2.1) := by
  induction orig with
  | nil => intro cur i; simp [runConversions]
  | cons img rest ih =>
      intro cur i
      simp only [runConversions]
      refine List.chain'_cons.mpr ⟨rfl, ?_⟩
      refine List.chain'_cons.mpr ⟨⟨cur, rfl⟩, ?_⟩
      refine List.chain'_cons'.mpr ⟨?_, ih _ _⟩
      intro h _
      simp [adjOk]

theorem runConversions_begins (envOf : ImageFile → Env) (orig : List ImageFile) :
    ∀ cur i, beginsOf ((runConversions envOf orig cur i).2.1) = enumFrom i orig := by
  induction orig with
  | nil => intro cur i; simp [runConversions, beginsOf, enumFrom]
  | cons img rest ih =>
      intro cur i
      simp [runConversions, beginsOf, enumFrom] at ih ⊢
      exact ih _ _

theorem convertImage_calls_local (env : Env) (image : ImageFile) :
    ((convertImage env image).calls).all localEffect = true := by
  obtain ⟨d, c, tb, cu⟩ := env
  cases d <;> cases c <;> cases tb <;> simp [convertImage, localEffect]
  all_goals intro x _ hx
  all_goals rcases hx with rfl | rfl <;> rfl

theorem runConversions_effects_local (envOf : ImageFile → Env) (orig : List ImageFile) :
    ∀ cur i, ((runConversions envOf orig cur i).2.2).all localEffect = true := by
  induction orig with
  | nil => intro cur i; simp [runConversions]
  | cons img rest ih =>
      intro cur i
      simp [runConversions, List.all_append, ih, convertImage_calls_local]

/-- A canvas-painting effect: setting the fill style or filling a rectangle. -/
def paintEffect : Effect → Bool
  | Effect.setFillStyle _ => true
  | Effect.fillRect _ _ _ _ => true
  | _ => false

/-- A sample browser environment in which everything succeeds. -/
def okEnv : Env :=
  { decode := DecodeResult.ok 2 3, ctx2d := true, toBlob := BlobResult.ok { id := 7 },
    createUrl := fun _ => "blob:out-7" }

/-- A sample browser environment whose image decode fails. -/
def badEnv : Env :=
  { decode := DecodeResult.err, ctx2d := true, toBlob := BlobResult.nullBlob,
    createUrl := fun _ => "blob:out-0" }

/-- A sample image record targeting PNG, previously converted and carrying an
error, whose source name has two dots. -/
def samplePng : ImageFile :=
  { id := "a", file := { name := "photo.raw.tiff", type := "image/tiff", data := 1 },
    preview := "blob:p1", convertedUrl := none, converting := false, error := none,
    targetFormat := "image/png" }

/-- A sample image record targeting SVG. -/
def sampleSvg : ImageFile :=
  { samplePng with targetFormat := "image/svg+xml" }

/-- A sample image record that already has a converted URL. -/
def sampleConverted : ImageFile :=
  { samplePng with convertedUrl := some "blob:c1" }

/-- C1: when the source decodes and the 2d context is available, `convertImage`
creates a canvas of the decoded dimensions, optionally paints a background,
draws the image at the origin, re-encodes through `canvas.toBlob` with the
image's target MIME type, and — when the encoder succeeds — resolves with the
record whose `convertedUrl` is the object URL `URL.createObjectURL` returns
for the encoded blob, whose `file` has the target MIME type, and whose `error`
is null. -/
theorem c1_convert_pipeline (env : Env) (image : ImageFile) (w h : Nat) (b : Blob)
    (hdec : env.decode = DecodeResult.ok w h) (hctx : env.ctx2d = true)
    (hblob : env.toBlob = BlobResult.ok b) :
    (∃ bg q, (bg = [] ∨ bg = [Effect.setFillStyle "#FFFFFF", Effect.fillRect 0 0 w h]) ∧
      (convertImage env image).calls =
        Effect.createCanvas w h :: bg ++
          [Effect.drawImage 0 0, Effect.toBlobCall image.targetFormat q,
           Effect.createObjectURL (env.createUrl b)]) ∧
    (convertImage env image).result.convertedUrl = some (env.createUrl b) ∧
    (convertImage env image).result.file.type = image.targetFormat ∧
    (convertImage env image).result.error = none := by
  by_cases hfmt : (image.targetFormat == "image/jpeg" || image.targetFormat == "image/bmp") = true
  · refine ⟨⟨[Effect.setFillStyle "#FFFFFF", Effect.fillRect 0 0 w h],
      (if image.targetFormat == "image/jpeg" then some ((95 : Rat) / 100) else none),
      Or.inr rfl, ?_⟩, ?_, ?_, ?_⟩ <;>
      simp [convertImage, hdec, hctx, hblob, hfmt]
  · simp only [Bool.or_eq_true] at hfmt
    push_neg at hfmt
    refine ⟨⟨[], none, Or.inl rfl, ?_⟩, ?_, ?_, ?_⟩ <;>
      simp [convertImage, hdec, hctx, hblob, hfmt.1, hfmt.2]

/-- Witness for C1 at a concrete successful environment and image. -/
theorem c1_witness :
    okEnv.decode = DecodeResult.ok 2 3 ∧ okEnv.ctx2d = true ∧
    okEnv.toBlob = BlobResult.ok { id := 7 } ∧
    (convertImage okEnv samplePng).result.convertedUrl = some "blob:out-7" ∧
    (convertImage okEnv samplePng).result.error = none :=
  ⟨rfl, rfl, rfl,
    (c1_convert_pipeline okEnv samplePng 2 3 { id := 7 } rfl rfl rfl).2.1,
    (c1_convert_pipeline okEnv samplePng 2 3 { id := 7 } rfl rfl rfl).2.2.2⟩

/-- The environment conditions under which `convertImage` succeeds: the image
decodes, the 2d context is available, and `canvas.toBlob` delivers a blob. -/
def convertSuccessEnv (env : Env) : Prop :=
  (∃ w h, env.decode = DecodeResult.ok w h) ∧ env.ctx2d = true ∧
    ∃ b, env.toBlob = BlobResult.ok b

/-- C8: `convertImage` resolves on every input (it is a total function of the
environment and the image) with `converting = false`; the resolved record's
`error` is null exactly when the decode, the 2d context and the encoder all
succeed; and on every failure the record keeps the input's `file`, `preview`,
`convertedUrl` and `targetFormat`. -/
theorem c8_total_atomic_failure (env : Env) (image : ImageFile) :
    (convertImage env image).result.converting = false ∧
    ((convertImage env image).result.error = none ↔ convertSuccessEnv env) ∧
    ((convertImage env image).result.error ≠ none →
      (convertImage env image).result.file = image.file ∧
      (convertImage env image).result.preview = image.preview ∧
      (convertImage env image).result.convertedUrl = image.convertedUrl ∧
      (convertImage env image).result.targetFormat = image.targetFormat) := by
  obtain ⟨d, c, tb, cu⟩ := env
  cases d <;> cases c <;> cases tb <;> simp [convertImage, convertSuccessEnv]

/-- Witness for C8 at a concrete failing environment: the decode error leaves
every field but `converting` and `error` untouched. -/
theorem c8_witness :
    (convertImage badEnv samplePng).result.error ≠ none ∧
    (convertImage badEnv samplePng).result.file = samplePng.file ∧
    (convertImage badEnv samplePng).result.convertedUrl = samplePng.convertedUrl :=
  ⟨by decide,
   ((c8_total_atomic_failure badEnv samplePng).2.2 (by decide)).1,
   ((c8_total_atomic_failure badEnv samplePng).2.2 (by decide)).2.2.1⟩

/-- C9: after a successful decode with an available context, the calls before
`drawImage` are exactly a white `fillStyle`/`fillRect` pair when the target
format is `image/jpeg` or `image/bmp` and nothing otherwise, no painting call
follows `drawImage`, and a `fillRect` occurs at all exactly for those two
formats. -/
theorem c9_white_background (env : Env) (image : ImageFile) (w h : Nat)
    (hdec : env.decode = DecodeResult.ok w h) (hctx : env.ctx2d = true) :
    (∃ rest, (convertImage env image).calls =
        Effect.createCanvas w h ::
          (if image.targetFormat == "image/jpeg" || image.targetFormat == "image/bmp" then
            [Effect.setFillStyle "#FFFFFF", Effect.fillRect 0 0 w h]
          else []) ++ Effect.drawImage 0 0 :: rest ∧
        rest.all (fun e => !(paintEffect e)) = true) ∧
    ((∃ x y a c, Effect.fillRect x y a c ∈ (convertImage env image).calls) ↔
      (image.targetFormat = "image/jpeg" ∨ image.targetFormat = "image/bmp")) := by
  by_cases hfmt : (image.targetFormat == "image/jpeg" || image.targetFormat == "image/bmp") = true
  · constructor
    · cases htb : env.toBlob with
      | thrown msg =>
          exact ⟨[Effect.toBlobCall image.targetFormat
              (if image.targetFormat == "image/jpeg" then some ((95 : Rat) / 100) else none)],
            by simp [convertImage, hdec, hctx, htb, hfmt], by simp [paintEffect]⟩
      | nullBlob =>
          exact ⟨[Effect.toBlobCall image.targetFormat
              (if image.targetFormat == "image/jpeg" then some ((95 : Rat) / 100) else none)],
            by simp [convertImage, hdec, hctx, htb, hfmt], by simp [paintEffect]⟩
      | ok b =>
          exact ⟨[Effect.toBlobCall image.targetFormat
              (if image.targetFormat == "image/jpeg" then some ((95 : Rat) / 100) else none),
              Effect.createObjectURL (env.createUrl b)],
            by simp [convertImage, hdec, hctx, htb, hfmt], by simp [paintEffect]⟩
    · have hfmt2 : image.targetFormat = "image/jpeg" ∨ image.targetFormat = "image/bmp" := by
        simpa using hfmt
      refine ⟨fun _ => hfmt2, fun _ => ⟨0, 0, w, h, ?_⟩⟩
      cases htb : env.toBlob <;> simp [convertImage, hdec, hctx, htb, hfmt]
  · constructor
    · cases htb : env.toBlob with
      | thrown msg =>
          exact ⟨[Effect.toBlobCall image.targetFormat
              (if image.targetFormat == "image/jpeg" then some ((95 : Rat) / 100) else none)],
            by simp [convertImage, hdec, hctx, htb, hfmt], by simp [paintEffect]⟩
      | nullBlob =>
          exact ⟨[Effect.toBlobCall image.targetFormat
              (if image.targetFormat == "image/jpeg" then some ((95 : Rat) / 100) else none)],
            by simp [convertImage, hdec, hctx, htb, hfmt], by simp [paintEffect]⟩
      | ok b =>
          exact ⟨[Effect.toBlobCall image.targetFormat
              (if image.targetFormat == "image/jpeg" then some ((95 : Rat) / 100) else none),
              Effect.createObjectURL (env.createUrl b)],
            by simp [convertImage, hdec, hctx, htb, hfmt], by simp [paintEffect]⟩
    · have hfmt2 : ¬(image.targetFormat = "image/jpeg" ∨ image.targetFormat = "image/bmp") := by
        simpa using hfmt
      refine ⟨fun hex => absurd ?_ hfmt2, fun hor => absurd hor hfmt2⟩
      obtain ⟨x, y, a, c, hmem⟩ := hex
      cases htb : env.toBlob <;>
        simp [convertImage, hdec, hctx, htb, hfmt] at hmem

/-- Witness for C9 at a concrete environment and a PNG-targeting image: no
`fillRect` is emitted. -/
theorem c9_witness :
    okEnv.decode = DecodeResult.ok 2 3 ∧ okEnv.ctx2d = true ∧
    ¬(∃ x y a c, Effect.fillRect x y a c ∈ (convertImage okEnv samplePng).calls) := by
  refine ⟨rfl, rfl, ?_⟩
  intro hex
  exact absurd ((c9_white_background okEnv samplePng 2 3 rfl rfl).2.mp hex) (by decide)

/-- C10 as stated is false: for target `image/svg+xml` the code's extension is
the substring after the last slash, `svg+xml`, not `xml`. -/
theorem c10_counterexample :
    (convertImage okEnv sampleSvg).result.file.name = "photo.svg+xml" ∧
    ¬((convertImage okEnv sampleSvg).result.file.name = "photo.xml") := by
  constructor <;> decide

/-- C10 amended: on every successful conversion the new file name is the part
of the original name before the first dot, a dot, and the substring of the
target MIME type after its last slash; a multi-dot source name loses
everything after its first dot, target `image/svg+xml` yields extension
`svg+xml` (not `xml`), and target `image/x-icon` yields `x-icon`. -/
theorem c10_amended (env : Env) (image : ImageFile) (w h : Nat) (b : Blob)
    (hdec : env.decode = DecodeResult.ok w h) (hctx : env.ctx2d = true)
    (hblob : env.toBlob = BlobResult.ok b) :
    (convertImage env image).result.file.name =
      (jsSplit image.file.name '.').headD "" ++ "." ++
        (jsSplit image.targetFormat '/').getLastD "" ∧
    extensionOf "image/svg+xml" = "svg+xml" ∧
    extensionOf "image/x-icon" = "x-icon" ∧
    convertedName "photo.raw.tiff" "image/png" = "photo.png" := by
  refine ⟨?_, by decide, by decide, by decide⟩
  simp [convertImage, hdec, hctx, hblob, convertedName, extensionOf]

/-- Witness for the amended C10 at a concrete conversion. -/
theorem c10_witness :
    okEnv.decode = DecodeResult.ok 2 3 ∧
    (convertImage okEnv samplePng).result.file.name =
      (jsSplit "photo.raw.tiff" '.').headD "" ++ "." ++
        (jsSplit "image/png" '/').getLastD "" :=
  ⟨rfl, (c10_amended okEnv samplePng 2 3 { id := 7 } rfl rfl rfl).1⟩

/-- A sample application state holding one image. -/
def sampleState : AppState :=
  { images := [samplePng], targetFormat := "image/png", isConverting := false,
    showInfo := false, darkMode := true }

/-- A sample application state with no images. -/
def emptyState : AppState :=
  { images := [], targetFormat := "image/png", isConverting := false,
    showInfo := false, darkMode := true }

/-- A sample environment oracle: every image converts against `okEnv`. -/
def sampleEnvOf : ImageFile → Env := fun _ => okEnv

/-- C2: a `convertAllImages` run is strictly sequential.  Its scheduling trace
is the initial marking followed by `begin, finish, update` blocks for indices
`0, …, n-1` in order — so conversion `i+1` begins only after conversion `i`
resolved; adjacency holds: each begun conversion is immediately followed by
its own resolution and each resolution by the state update replacing the
resolved entry by id; and at most one conversion is ever in flight. -/
theorem c2_sequential_conversion (envOf : ImageFile → Env) (s : AppState)
    (hne : s.images ≠ []) :
    ((convertAllImages envOf s).2.1).map tagOf = Tag.markT :: seqTags 0 s.images.length ∧
    List.Chain' (adjOk envOf) ((convertAllImages envOf s).2.1) ∧
    inflightOk 0 (((convertAllImages envOf s).2.1).map tagOf) = true := by
  have hie : s.images.isEmpty = false := by
    simpa [List.isEmpty_iff] using hne
  refine ⟨?_, ?_, ?_⟩
  · simp [convertAllImages, hie, tagOf, runConversions_tags]
  · simp only [convertAllImages, hie, Bool.false_eq_true, if_false]
    refine List.chain'_cons'.mpr ⟨?_, runConversions_chain envOf s.images _ 0⟩
    intro h _
    simp [adjOk]
  · simp [convertAllImages, hie, tagOf, inflightOk, runConversions_tags, inflightOk_seqTags]

/-- Witness for C2 at a concrete one-image state. -/
theorem c2_witness :
    sampleState.images ≠ [] ∧
    ((convertAllImages sampleEnvOf sampleState).2.1).map tagOf =
      Tag.markT :: seqTags 0 sampleState.images.length :=
  ⟨by decide, (c2_sequential_conversion sampleEnvOf sampleState (by decide)).1⟩

/-- C5: a `convertAllImages` run on an empty list is a no-op; on a nonempty
list it first posts the state in which every image is marked converting with
its error cleared, then starts exactly one conversion per index `0, …, n-1`,
in order, whose input is the captured image record itself — with no condition
on whether that image was converted before or failed before, so there is no
caching and no retry filtering. -/
theorem c5_no_caching_no_retry (envOf : ImageFile → Env) (s : AppState) :
    (s.images = [] → convertAllImages envOf s = (s, [], [])) ∧
    (s.images ≠ [] →
      ∃ tr, (convertAllImages envOf s).2.1 = Ev.mark (markConverting s.images) :: tr ∧
        beginsOf ((convertAllImages envOf s).2.1) = enumFrom 0 s.images ∧
        ∀ img2 ∈ markConverting s.images, img2.converting = true ∧ img2.error = none) := by
  constructor
  · intro h
    simp [convertAllImages, h]
  · intro hne
    have hie : s.images.isEmpty = false := by
      simpa [List.isEmpty_iff] using hne
    refine ⟨(runConversions envOf s.images (markConverting s.images) 0).2.1, ?_, ?_, ?_⟩
    · simp [convertAllImages, hie]
    · have h1 : beginsOf ((convertAllImages envOf s).2.1) =
          beginsOf ((runConversions envOf s.images (markConverting s.images) 0).2.1) := by
        simp [convertAllImages, hie, beginsOf]
      rw [h1, runConversions_begins]
    · intro img2 hmem
      simp [markConverting] at hmem
      obtain ⟨a, _, rfl⟩ := hmem
      exact ⟨rfl, rfl⟩

/-- Witness for C5: the empty state is untouched, and the one-image state
posts the marked list first. -/
theorem c5_witness :
    convertAllImages sampleEnvOf emptyState = (emptyState, [], []) ∧
    (∃ tr, (convertAllImages sampleEnvOf sampleState).2.1 =
        Ev.mark (markConverting sampleState.images) :: tr) := by
  refine ⟨(c5_no_caching_no_retry sampleEnvOf emptyState).1 rfl, ?_⟩
  obtain ⟨tr, h1, _, _⟩ := (c5_no_caching_no_retry sampleEnvOf sampleState).2 (by decide)
  exact ⟨tr, h1⟩

/-- A sample state holding one already-converted image. -/
def sampleConvertedState : AppState :=
  { images := [sampleConverted], targetFormat := "image/png", isConverting := false,
    showInfo := false, darkMode := true }

/-- C3 as stated is false: removing an image that has a converted URL revokes
two object-URL handles — its preview and its converted URL — not exactly
one. -/
theorem c3_counterexample :
    ((removeImage "a" sampleConvertedState).2).length = 2 ∧
    ¬(((removeImage "a" sampleConvertedState).2).length = 1) := by
  constructor <;> decide

/-- The number of handles the cleanup code revokes for a list: one per image
plus one more per image holding a converted URL. -/
theorem handles_length (l : List ImageFile) :
    (l.flatMap handlesOf).length =
      l.length + l.countP (fun img => img.convertedUrl.isSome) := by
  induction l with
  | nil => simp
  | cons a t ih =>
      cases h : a.convertedUrl <;>
        simp [handlesOf, h, ih, List.countP_cons] <;> omega

/-- C3 amended: `clearAllImages` revokes one handle per image in the list plus
one more per image that holds a converted URL, and `removeImage` on an id the
list contains revokes the found entry's preview handle plus its converted
handle when present — so one handle for an unconverted image and two for a
converted one, not always exactly one. -/
theorem c3_amended (s : AppState) :
    ((clearAllImages s).2).length =
      s.images.length + s.images.countP (fun img => img.convertedUrl.isSome) ∧
    (∀ id img, s.images.find? (fun i => i.id == id) = some img →
      ((removeImage id s).2).length = 1 + (if img.convertedUrl.isSome then 1 else 0)) := by
  constructor
  · show ((s.images.flatMap handlesOf).map Effect.revokeObjectURL).length = _
    rw [List.length_map]
    exact handles_length s.images
  · intro id img hfind
    cases h : img.convertedUrl <;>
      simp [removeImage, hfind, handlesOf, h]

/-- Witness for the amended C3 at a concrete converted image: two handles. -/
theorem c3_witness :
    sampleConvertedState.images.find? (fun i => i.id == "a") = some sampleConverted ∧
    ((removeImage "a" sampleConvertedState).2).length =
      1 + (if sampleConverted.convertedUrl.isSome then 1 else 0) :=
  ⟨by decide, (c3_amended sampleConvertedState).2 "a" sampleConverted (by decide)⟩

/-- Every record `newEntries` builds carries the target format it was given. -/
theorem newEntries_targetFormat (uuids previews : Nat → String) (tf : String) :
    ∀ n files e, e ∈ newEntries uuids previews tf n files → e.targetFormat = tf := by
  intro n files
  induction files generalizing n with
  | nil => intro e he; simp [newEntries] at he
  | cons f rest ih =>
      intro e he
      simp [newEntries] at he
      rcases he with rfl | he
      · rfl
      · exact ih _ _ he

/-- C4: the target format is per file with a global default.
`updateImageTargetFormat id f` gives the entry with that id target format `f`
and leaves every other entry entirely unchanged; `applyGlobalFormatToAll`
gives every entry the current global format; a nonempty file selection appends
records whose target format is the global format current at that moment; and
`convertImage` always hands `canvas.toBlob` the image's own per-file target
format. -/
theorem c4_per_file_and_global_format :
    (∀ (id format : String) (images : List ImageFile) (k : Nat) (img : ImageFile),
      images[k]? = some img →
      (img.id = id →
        ∃ img2, (updateImageTargetFormat id format images)[k]? = some img2 ∧
          img2.targetFormat = format) ∧
      (img.id ≠ id → (updateImageTargetFormat id format images)[k]? = some img)) ∧
    (∀ (targetFormat : String) (images : List ImageFile) (img2 : ImageFile),
      img2 ∈ applyGlobalFormatToAll targetFormat images →
      img2.targetFormat = targetFormat) ∧
    (∀ (uuids previews : Nat → String) (files : List File) (s : AppState), files ≠ [] →
      (handleFileSelect uuids previews files s).1.images =
        s.images ++ newEntries uuids previews s.targetFormat 0 files ∧
      ∀ e ∈ newEntries uuids previews s.targetFormat 0 files,
        e.targetFormat = s.targetFormat) ∧
    (∀ (env : Env) (image : ImageFile) (m : String) (q : Option Rat),
      Effect.toBlobCall m q ∈ (convertImage env image).calls →
      m = image.targetFormat) := by
  refine ⟨?_, ?_, ?_, ?_⟩
  · intro id format images k img hk
    constructor
    · intro hid
      refine ⟨{ img with targetFormat := format, convertedUrl := none, error := none },
        ?_, rfl⟩
      simp [updateImageTargetFormat, List.getElem?_map, hk, hid]
    · intro hid
      simp [updateImageTargetFormat, List.getElem?_map, hk, hid]
  · intro targetFormat images img2 hmem
    simp [applyGlobalFormatToAll] at hmem
    obtain ⟨a, _, rfl⟩ := hmem
    rfl
  · intro uuids previews files s hne
    have hie : files.isEmpty = false := by
      simpa [List.isEmpty_iff] using hne
    exact ⟨by simp [handleFileSelect, hie],
      fun e he => newEntries_targetFormat uuids previews s.targetFormat 0 files e he⟩
  · intro env image m q hmem
    obtain ⟨d, c, tb, cu⟩ := env
    by_cases hfmt : (image.targetFormat == "image/jpeg" || image.targetFormat == "image/bmp") = true <;>
      cases d <;> cases c <;> cases tb <;>
        simp [convertImage, hfmt] at hmem <;> tauto

/-- Witness for C4: retargeting the only image of the sample state to WebP. -/
theorem c4_witness :
    sampleState.images[0]? = some samplePng ∧ samplePng.id = "a" ∧
    (∃ img2, (updateImageTargetFormat "a" "image/webp" sampleState.images)[0]? = some img2 ∧
      img2.targetFormat = "image/webp") :=
  ⟨by decide, by decide,
    (c4_per_file_and_global_format.1 "a" "image/webp" sampleState.images 0 samplePng
      (by decide)).1 (by decide)⟩

/-- C6: downloads are gated on a conversion result: `downloadImage` does
nothing when the image has no converted URL, and `downloadAllImages` clicks a
download exactly for the images with a converted URL, in list order, naming
each download after that image's current file name. -/
theorem c6_download_gating :
    (∀ image : ImageFile, image.convertedUrl = none → downloadImage image = []) ∧
    (∀ images : List ImageFile, downloadAllImages images =
      images.filterMap (fun img =>
        img.convertedUrl.map (fun u => Effect.domDownloadClick u img.file.name))) := by
  constructor
  · intro image h
    simp [downloadImage, h]
  · intro images
    induction images with
    | nil => rfl
    | cons a t ih =>
        cases h : a.convertedUrl <;>
          simp [downloadAllImages, downloadImage, h] at ih ⊢ <;> exact ih

/-- Witness for C6 at a concrete unconverted image. -/
theorem c6_witness :
    samplePng.convertedUrl = none ∧ downloadImage samplePng = [] :=
  ⟨rfl, c6_download_gating.1 samplePng rfl⟩

/-- A list of `revokeObjectURL` effects is entirely local. -/
theorem revokes_local (l : List String) :
    ((l.map Effect.revokeObjectURL).all localEffect) = true := by
  simp [List.all_map, Function.comp, localEffect, List.all_eq_true]

/-- A list of `createObjectURL` effects is entirely local. -/
theorem creates_local (f : ImageFile → String) (l : List ImageFile) :
    ((l.map (fun e => Effect.createObjectURL (f e))).all localEffect) = true := by
  simp [List.all_map, Function.comp, localEffect, List.all_eq_true]

/-- C7: every operation's effect is confined to the in-memory hook state plus
local browser interactions.  Each operation leaves the state fields it does
not own untouched, and every platform effect any operation emits satisfies
`localEffect` — the effect language contains `netRequest` and `persistData`
constructors, and no operation ever produces either. -/
theorem c7_local_effects_frame (s : AppState) :
    (∀ (uuids previews : Nat → String) (files : List File),
      (handleFileSelect uuids previews files s).1.targetFormat = s.targetFormat ∧
      (handleFileSelect uuids previews files s).1.isConverting = s.isConverting ∧
      (handleFileSelect uuids previews files s).1.showInfo = s.showInfo ∧
      (handleFileSelect uuids previews files s).1.darkMode = s.darkMode ∧
      ((handleFileSelect uuids previews files s).2).all localEffect = true) ∧
    (∀ id : String,
      (removeImage id s).1.targetFormat = s.targetFormat ∧
      (removeImage id s).1.isConverting = s.isConverting ∧
      (removeImage id s).1.showInfo = s.showInfo ∧
      (removeImage id s).1.darkMode = s.darkMode ∧
      ((removeImage id s).2).all localEffect = true) ∧
    ((clearAllImages s).1.targetFormat = s.targetFormat ∧
      (clearAllImages s).1.isConverting = s.isConverting ∧
      (clearAllImages s).1.showInfo = s.showInfo ∧
      (clearAllImages s).1.darkMode = s.darkMode ∧
      ((clearAllImages s).2).all localEffect = true) ∧
    (∀ envOf : ImageFile → Env,
      (convertAllImages envOf s).1.targetFormat = s.targetFormat ∧
      (convertAllImages envOf s).1.showInfo = s.showInfo ∧
      (convertAllImages envOf s).1.darkMode = s.darkMode ∧
      ((convertAllImages envOf s).2.2).all localEffect = true) ∧
    (∀ image : ImageFile, (downloadImage image).all localEffect = true) ∧
    (∀ images : List ImageFile, (downloadAllImages images).all localEffect = true) ∧
    ((toggleTheme s).images = s.images ∧ (toggleTheme s).targetFormat = s.targetFormat ∧
      (toggleTheme s).isConverting = s.isConverting ∧
      (toggleTheme s).showInfo = s.showInfo) ∧
    (∀ format : String,
      (setTargetFormat format s).images = s.images ∧
      (setTargetFormat format s).isConverting = s.isConverting ∧
      (setTargetFormat format s).showInfo = s.showInfo ∧
      (setTargetFormat format s).darkMode = s.darkMode) ∧
    ((toggleInfo s).images = s.images ∧ (toggleInfo s).targetFormat = s.targetFormat ∧
      (toggleInfo s).isConverting = s.isConverting ∧
      (toggleInfo s).darkMode = s.darkMode) ∧
    (∀ id format : String,
      (updateImageTargetFormat id format s.images).length = s.images.length) ∧
    (∀ format : String,
      (applyGlobalFormatToAll format s.images).length = s.images.length) := by
  refine ⟨?_, ?_, ?_, ?_, ?_, ?_, ?_, ?_, ?_, ?_, ?_⟩
  · intro uuids previews files
    by_cases hf : files.isEmpty = true <;>
      simp [handleFileSelect, hf, creates_local]
  · intro id
    exact ⟨rfl, rfl, rfl, rfl, revokes_local _⟩
  · exact ⟨rfl, rfl, rfl, rfl, revokes_local _⟩
  · intro envOf
    by_cases hie : s.images.isEmpty = true <;>
      simp [convertAllImages, hie, runConversions_effects_local]
  · intro image
    cases h : image.convertedUrl <;> simp [downloadImage, h, localEffect]
  · intro images
    induction images with
    | nil => rfl
    | cons a t ih =>
        cases h : a.convertedUrl <;>
          simp [downloadAllImages, downloadImage, h, localEffect, List.all_append] at ih ⊢ <;>
          exact ih
  · exact ⟨rfl, rfl, rfl, rfl⟩
  · intro format
    exact ⟨rfl, rfl, rfl, rfl⟩
  · exact ⟨rfl, rfl, rfl, rfl⟩
  · intro id format
    simp [updateImageTargetFormat]
  · intro format
    simp [applyGlobalFormatToAll]

end PicConv
